import Mathlib

/-!
Verification of the request-resolution and execution core of the Agentic-Docker
DevOps agent (package `devops_agent`), shallowly embedded in Lean 4.

Each definition mirrors one Python function or constant of the source tree:
  * `Json`, `getField`, `truthy`      — the dict/JSON values the code passes around
  * `strContains`                     — Python's `pat in s` substring test
  * `AMBIGUOUS_TOOL_PAIRS`, `disambiguate`, `sessionHasRemote`, `sessionHasLocal`
                                      — the disambiguation block of
                                        `devops_agent/agent.py` (process_query_async)
  * `ContextCache` model              — `devops_agent/context_cache.py`
  * `call_tool_async` model           — `devops_agent/mcp/client.py`
  * `planExecution`, `executeToolCalls` — the safety gate / scheduler of
                                        `devops_agent/agent.py`
  * `executeBatchDescribe`            — `_execute_batch_describe` of `devops_agent/agent.py`
  * `route`                           — `devops_agent/regex_router.py` (RegexRouter.route)
  * `validate_and_parse`, `validate_semantics` — `devops_agent/agent_module.py`
-/

set_option maxRecDepth 4000

namespace DevopsAgent

/-- JSON-like values: the Python dicts/lists/scalars the agent code passes around. -/
inductive Json where
  | null
  | bool (b : Bool)
  | num (n : Int)
  | str (s : String)
  | arr (elems : List Json)
  | obj (fields : List (String × Json))

/-- Lookup of a key in a field list (Python `d.get(key)` on a dict). -/
def lookupField : List (String × Json) → String → Option Json
  | [], _ => none
  | (k, v) :: rest, key => if k = key then some v else lookupField rest key

/-- Python `d.get(key)`: `none` when the value is not a dict or the key is absent. -/
def getField : Json → String → Option Json
  | .obj fields, key => lookupField fields key
  | _, _ => none

/-- Python truthiness of a JSON value. -/
def truthy : Json → Bool
  | .null => false
  | .bool b => b
  | .num n => n != 0
  | .str s => s != ""
  | .arr xs => !xs.isEmpty
  | .obj fs => !fs.isEmpty

/-- Python truthiness of `d.get(key)` (missing key is `None`, hence falsy). -/
def truthyOpt : Option Json → Bool
  | none => false
  | some v => truthy v

/-- Is the value a JSON string? -/
def isStrJson : Json → Bool
  | .str _ => true
  | _ => false

/-- Does `p` occur as a leading segment of `s` (on character lists)? -/
def charsHavePfx : List Char → List Char → Bool
  | [], _ => true
  | _ :: _, [] => false
  | p :: ps, c :: cs => p == c && charsHavePfx ps cs

/-- Does the pattern occur anywhere in the character list? -/
def charsContain : List Char → List Char → Bool
  | [], pat => pat.isEmpty
  | c :: cs, pat => charsHavePfx pat (c :: cs) || charsContain cs pat

/-- Python's substring test `pat in s`. -/
def strContains (s pat : String) : Bool := charsContain s.toList pat.toList

/-- Does the string start with the given pattern? -/
def strStartsWith (s pat : String) : Bool := charsHavePfx pat.toList s.toList

/-- Python's `s.lower()` (ASCII, which covers every string the agent compares). -/
def lowerStr (s : String) : String := String.mk (s.data.map Char.toLower)

/-- Generic association-list lookup over string keys. -/
def lookupStr : List (String × String) → String → Option String
  | [], _ => none
  | (k, v) :: rest, key => if k = key then some v else lookupStr rest key

theorem lookupStr_mem {l : List (String × String)} {k v : String}
    (h : lookupStr l k = some v) : (k, v) ∈ l := by
  induction l with
  | nil => simp [lookupStr] at h
  | cons kv rest ih =>
    obtain ⟨k', v'⟩ := kv
    by_cases hk : k' = k
    · subst hk
      simp [lookupStr] at h
      subst h
      exact List.mem_cons_self _ _
    · simp [lookupStr, hk] at h
      exact List.mem_cons_of_mem _ (ih h)

/-! ## Disambiguation (devops_agent/agent.py, process_query_async lines 393-502) -/

/-- A session-history message: `{"role": ..., "content": ...}`. -/
structure Msg where
  role : String
  content : String
deriving DecidableEq

/-- The `AMBIGUOUS_TOOL_PAIRS` table of `process_query_async` (both directions). -/
def AMBIGUOUS_TOOL_PAIRS : List (String × String) := [
  ("local_k8s_list_pods", "remote_k8s_list_pods"),
  ("local_k8s_list_nodes", "remote_k8s_list_nodes"),
  ("local_k8s_list_deployments", "remote_k8s_list_deployments"),
  ("local_k8s_describe_node", "remote_k8s_describe_node"),
  ("local_k8s_describe_deployment", "remote_k8s_describe_deployment"),
  ("local_k8s_describe_pod", "remote_k8s_describe_pod"),
  ("remote_k8s_list_pods", "local_k8s_list_pods"),
  ("remote_k8s_list_nodes", "local_k8s_list_nodes"),
  ("remote_k8s_list_deployments", "local_k8s_list_deployments"),
  ("remote_k8s_describe_node", "local_k8s_describe_node"),
  ("remote_k8s_describe_deployment", "local_k8s_describe_deployment"),
  ("remote_k8s_describe_pod", "local_k8s_describe_pod")
]

/-- Model of `session_has_remote` as accumulated by the history loop of `process_query_async`:
an assistant message containing "remote_k8s_" or a user message containing "remote". -/
def sessionHasRemote : List Msg → Bool
  | [] => false
  | m :: rest =>
      ((m.role == "assistant") && strContains m.content "remote_k8s_")
      || ((m.role == "user") && strContains (lowerStr m.content) "remote")
      || sessionHasRemote rest

/-- Model of `session_has_local`: an assistant message containing "local_k8s_" but not
"remote_k8s_", or a user message containing "local". -/
def sessionHasLocal : List Msg → Bool
  | [] => false
  | m :: rest =>
      ((m.role == "assistant") && strContains m.content "local_k8s_"
        && !strContains m.content "remote_k8s_")
      || ((m.role == "user") && strContains (lowerStr m.content) "local")
      || sessionHasLocal rest

/-- A resolved tool call, `{"name": ..., "arguments": {...}}` plus the optional
`_batch_describe` metadata keys the RegexRouter can attach. -/
structure ToolCall where
  name : String
  arguments : List (String × Json)
  batchDescribe : Bool := false
  batchResourceType : String := ""
  batchFullDetail : Bool := false
  batchPfx : String := ""

/-- The remote-side tool of an ambiguous pair, per the source:
`if "remote_" in tool_name: remote_tool = tool_name else remote_tool = alternative`. -/
def remoteVariantOf (name alt : String) : String :=
  if strContains name "remote_" then name else alt

/-- The local-side tool of an ambiguous pair. -/
def localVariantOf (name alt : String) : String :=
  if strContains name "remote_" then alt else name

/-- Per-call disambiguation: CASE 1 explicit remote, CASE 2 explicit local,
CASE 3 sticky remote, CASE 4 sticky local, CASE 5 default remote.
Non-ambiguous names pass through untouched. -/
def disambiguateName (isRemote isLocal strongRemote strongLocal : Bool)
    (name : String) : String :=
  match lookupStr AMBIGUOUS_TOOL_PAIRS name with
  | none => name
  | some alt =>
    if isRemote then remoteVariantOf name alt
    else if isLocal then localVariantOf name alt
    else if strongRemote then remoteVariantOf name alt
    else if strongLocal then localVariantOf name alt
    else remoteVariantOf name alt

/-- Rewrites one call's name under the four disambiguation flags. -/
def disambOne (isRemote isLocal strongRemote strongLocal : Bool) (c : ToolCall) : ToolCall :=
  { c with name := disambiguateName isRemote isLocal strongRemote strongLocal c.name }

/-- The disambiguation block of `process_query_async`: computes the explicit
query tokens and the sticky-session flags, then rewrites each call's name. -/
def disambiguate (query : String) (history : List Msg) (calls : List ToolCall) :
    List ToolCall :=
  let ql := lowerStr query
  let isRemote := strContains ql "remote"
  let isLocal := strContains ql "local"
  let hasR := sessionHasRemote history
  let hasL := sessionHasLocal history
  calls.map (disambOne isRemote isLocal (hasR && !hasL) (hasL && !hasR))

theorem disambiguateName_explicit_remote {n a : String} (iso sr sl : Bool)
    (hpair : lookupStr AMBIGUOUS_TOOL_PAIRS n = some a) :
    disambiguateName true iso sr sl n = remoteVariantOf n a := by
  simp [disambiguateName, hpair]

theorem disambiguateName_sticky_local {n a : String}
    (hpair : lookupStr AMBIGUOUS_TOOL_PAIRS n = some a) :
    disambiguateName false false false true n = localVariantOf n a := by
  simp [disambiguateName, hpair]

theorem remoteVariant_startsWith {n a : String}
    (hpair : lookupStr AMBIGUOUS_TOOL_PAIRS n = some a) :
    strStartsWith (remoteVariantOf n a) "remote_k8s_" = true := by
  have hmem := lookupStr_mem hpair
  simp only [AMBIGUOUS_TOOL_PAIRS, List.mem_cons, List.not_mem_nil, or_false,
    Prod.mk.injEq] at hmem
  rcases hmem with ⟨hn, ha⟩ | ⟨hn, ha⟩ | ⟨hn, ha⟩ | ⟨hn, ha⟩ | ⟨hn, ha⟩ | ⟨hn, ha⟩ |
    ⟨hn, ha⟩ | ⟨hn, ha⟩ | ⟨hn, ha⟩ | ⟨hn, ha⟩ | ⟨hn, ha⟩ | ⟨hn, ha⟩ <;>
    rw [hn, ha] <;> decide

theorem localVariant_startsWith {n a : String}
    (hpair : lookupStr AMBIGUOUS_TOOL_PAIRS n = some a) :
    strStartsWith (localVariantOf n a) "local_k8s_" = true := by
  have hmem := lookupStr_mem hpair
  simp only [AMBIGUOUS_TOOL_PAIRS, List.mem_cons, List.not_mem_nil, or_false,
    Prod.mk.injEq] at hmem
  rcases hmem with ⟨hn, ha⟩ | ⟨hn, ha⟩ | ⟨hn, ha⟩ | ⟨hn, ha⟩ | ⟨hn, ha⟩ | ⟨hn, ha⟩ |
    ⟨hn, ha⟩ | ⟨hn, ha⟩ | ⟨hn, ha⟩ | ⟨hn, ha⟩ | ⟨hn, ha⟩ | ⟨hn, ha⟩ <;>
    rw [hn, ha] <;> decide

theorem sessionHasRemote_eq_false {history : List Msg}
    (h : ∀ m ∈ history,
      (m.role = "assistant" → strContains m.content "remote_k8s_" = false) ∧
      (m.role = "user" → strContains (lowerStr m.content) "remote" = false)) :
    sessionHasRemote history = false := by
  induction history with
  | nil => rfl
  | cons m rest ih =>
    have hm := h m (List.mem_cons_self _ _)
    have hrest := ih (fun x hx => h x (List.mem_cons_of_mem _ hx))
    simp only [sessionHasRemote, hrest, Bool.or_false, Bool.or_eq_false_iff,
      Bool.and_eq_false_iff]
    constructor
    · by_cases hr : m.role = "assistant"
      · exact Or.inr (hm.1 hr)
      · exact Or.inl (by simpa using hr)
    · by_cases hr : m.role = "user"
      · exact Or.inr (hm.2 hr)
      · exact Or.inl (by simpa using hr)

theorem sessionHasLocal_eq_true {history : List Msg} {m : Msg}
    (hmem : m ∈ history) (hrole : m.role = "assistant")
    (hl : strContains m.content "local_k8s_" = true)
    (hr : strContains m.content "remote_k8s_" = false) :
    sessionHasLocal history = true := by
  induction history with
  | nil => simp at hmem
  | cons x rest ih =>
    rcases List.mem_cons.mp hmem with h | h
    · subst h
      simp [sessionHasLocal, hrole, hl, hr]
    · simp [sessionHasLocal, ih h]

theorem disambiguate_get? (query : String) (history : List Msg)
    (calls : List ToolCall) (i : Nat) (c : ToolCall)
    (hc : calls.get? i = some c) :
    (disambiguate query history calls).get? i = some
      (disambOne (strContains (lowerStr query) "remote")
        (strContains (lowerStr query) "local")
        (sessionHasRemote history && !sessionHasLocal history)
        (sessionHasLocal history && !sessionHasRemote history) c) := by
  simp only [disambiguate]
  rw [List.get?_map, hc]
  rfl

/-- C6: for every resolved call whose capability belongs to an ambiguous
local/remote pair, if the query contains "remote" then the call's capability
after disambiguation is the remote-group variant, for every session history. -/
theorem explicit_remote_token_forces_remote_variant
    (query : String) (history : List Msg) (calls : List ToolCall)
    (i : Nat) (c : ToolCall) (alt : String)
    (hc : calls.get? i = some c)
    (hpair : lookupStr AMBIGUOUS_TOOL_PAIRS c.name = some alt)
    (hremote : strContains (lowerStr query) "remote" = true) :
    ∃ c', (disambiguate query history calls).get? i = some c' ∧
      c'.name = remoteVariantOf c.name alt ∧
      c'.arguments = c.arguments ∧
      strStartsWith c'.name "remote_k8s_" = true := by
  have hel := disambiguate_get? query history calls i c hc
  simp only [disambOne] at hel
  rw [hremote] at hel
  rw [disambiguateName_explicit_remote _ _ _ hpair] at hel
  exact ⟨_, hel, rfl, rfl, remoteVariant_startsWith hpair⟩

/-- C6 witness: query "list remote pods" switches `local_k8s_list_pods`
to `remote_k8s_list_pods` regardless of the (empty) history. -/
theorem explicit_remote_token_forces_remote_variant_witness :
    ∃ c', (disambiguate "list remote pods" [] [⟨"local_k8s_list_pods", [], false, "", false, ""⟩]).get? 0 =
        some c' ∧
      c'.name = remoteVariantOf "local_k8s_list_pods" "remote_k8s_list_pods" ∧
      c'.arguments = [] ∧
      strStartsWith c'.name "remote_k8s_" = true :=
  explicit_remote_token_forces_remote_variant "list remote pods" []
    [⟨"local_k8s_list_pods", [], false, "", false, ""⟩] 0
    ⟨"local_k8s_list_pods", [], false, "", false, ""⟩ "remote_k8s_list_pods"
    rfl (by decide) (by decide)

/-- C7: for every resolved call whose capability belongs to an ambiguous
local/remote pair, if the query contains neither "remote" nor "local" and the
session history contains a local-group prior call and no remote-group evidence,
then disambiguation outputs the local-group variant. -/
theorem sticky_local_context_forces_local_variant
    (query : String) (history : List Msg) (calls : List ToolCall)
    (i : Nat) (c : ToolCall) (alt : String)
    (hc : calls.get? i = some c)
    (hpair : lookupStr AMBIGUOUS_TOOL_PAIRS c.name = some alt)
    (hnoremote : strContains (lowerStr query) "remote" = false)
    (hnolocal : strContains (lowerStr query) "local" = false)
    (hlocalMsg : ∃ m ∈ history, m.role = "assistant" ∧
      strContains m.content "local_k8s_" = true ∧
      strContains m.content "remote_k8s_" = false)
    (hnoRemoteEvidence : ∀ m ∈ history,
      (m.role = "assistant" → strContains m.content "remote_k8s_" = false) ∧
      (m.role = "user" → strContains (lowerStr m.content) "remote" = false)) :
    ∃ c', (disambiguate query history calls).get? i = some c' ∧
      c'.name = localVariantOf c.name alt ∧
      c'.arguments = c.arguments ∧
      strStartsWith c'.name "local_k8s_" = true := by
  have hel := disambiguate_get? query history calls i c hc
  obtain ⟨m, hmem, hrole, hl, hr⟩ := hlocalMsg
  have hHasL := sessionHasLocal_eq_true hmem hrole hl hr
  have hHasR := sessionHasRemote_eq_false hnoRemoteEvidence
  simp only [disambOne] at hel
  rw [hnoremote, hnolocal, hHasL, hHasR] at hel
  simp only [Bool.false_and, Bool.not_false, Bool.true_and] at hel
  rw [disambiguateName_sticky_local hpair] at hel
  exact ⟨_, hel, rfl, rfl, localVariant_startsWith hpair⟩

/-- C7 witness: with history showing only a local tool call and the query
"list pods", `remote_k8s_list_pods` is switched to `local_k8s_list_pods`. -/
theorem sticky_local_context_forces_local_variant_witness :
    ∃ c', (disambiguate "list pods" [⟨"assistant", "Ran local_k8s_list_pods"⟩]
        [⟨"remote_k8s_list_pods", [], false, "", false, ""⟩]).get? 0 = some c' ∧
      c'.name = localVariantOf "remote_k8s_list_pods" "local_k8s_list_pods" ∧
      c'.arguments = [] ∧
      strStartsWith c'.name "local_k8s_" = true :=
  sticky_local_context_forces_local_variant "list pods"
    [⟨"assistant", "Ran local_k8s_list_pods"⟩]
    [⟨"remote_k8s_list_pods", [], false, "", false, ""⟩] 0
    ⟨"remote_k8s_list_pods", [], false, "", false, ""⟩ "local_k8s_list_pods"
    rfl (by decide) (by decide) (by decide)
    ⟨⟨"assistant", "Ran local_k8s_list_pods"⟩, by decide, by decide, by decide, by decide⟩
    (by intro m hm
        rcases List.mem_cons.mp hm with h | h
        · subst h
          exact ⟨fun _ => by decide, fun hu => absurd hu (by decide)⟩
        · simp at h)

/-! ## Episodic memory (devops_agent/context_cache.py, ContextCache) -/

/-- Python dict assignment `d[k] = v`: replace the first binding or append. -/
def alSet {κ α : Type} [DecidableEq κ] : List (κ × α) → κ → α → List (κ × α)
  | [], k, v => [(k, v)]
  | (k', v') :: rest, k, v =>
      if k' = k then (k, v) :: rest else (k', v') :: alSet rest k v

/-- Python dict lookup `d.get(k)`. -/
def alGet {κ α : Type} [DecidableEq κ] : List (κ × α) → κ → Option α
  | [], _ => none
  | (k', v') :: rest, k => if k' = k then some v' else alGet rest k

theorem alGet_alSet_self {κ α : Type} [DecidableEq κ] (l : List (κ × α)) (k : κ) (v : α) :
    alGet (alSet l k v) k = some v := by
  induction l with
  | nil => simp [alSet, alGet]
  | cons kv rest ih =>
    obtain ⟨k', v'⟩ := kv
    by_cases hk : k' = k
    · simp [alSet, alGet, hk]
    · simp [alSet, alGet, hk, ih]

theorem alSet_mem_self {κ α : Type} [DecidableEq κ] (l : List (κ × α)) (k : κ) (v : α) :
    (k, v) ∈ alSet l k v := by
  induction l with
  | nil => simp [alSet]
  | cons kv rest ih =>
    obtain ⟨k', v'⟩ := kv
    by_cases hk : k' = k
    · simp [alSet, hk]
    · simp only [alSet, if_neg hk]
      exact List.mem_cons_of_mem _ ih

/-- Model of `ResourceEntity` of context_cache.py (timestamp as integral seconds). -/
structure ResourceEntity where
  name : String
  kind : Json
  details : List (String × Json)
  timestamp : Int

/-- Model of `TTL_SECONDS = 60 * 5`: five-minute episodic memory. -/
def TTL_SECONDS : Int := 60 * 5

/-- One session's memory: resource name -> entity (a Python dict). -/
abbrev SessionMemory := List (String × ResourceEntity)

/-- The cache `{ session_id: { resource_name: ResourceEntity } }`. -/
abbrev CacheState := List (String × SessionMemory)

/-- Model of `ContextCache.update`: store each named resource with the current time
(resources without a truthy "name" are skipped; empty session ids are ignored). -/
def cacheUpdate (st : CacheState) (session_id : String)
    (resources : List (List (String × Json))) (now : Int) : CacheState :=
  if session_id = "" then st
  else
    let mem := (alGet st session_id).getD []
    let mem' := resources.foldl (fun m res =>
      match lookupField res "name" with
      | some (.str name) =>
          if name = "" then m
          else alSet m name ⟨name, (lookupField res "kind").getD (.str "Unknown"), res, now⟩
      | _ => m) mem
    alSet st session_id mem'

/-- The lazy prune of `get_context_block`: drop entries with
`now - v.timestamp > TTL_SECONDS`. -/
def pruneMem (now : Int) (mem : SessionMemory) : SessionMemory :=
  mem.filter (fun kv => !(decide (now - kv.2.timestamp > TTL_SECONDS)))

/-- Model of `ContextCache.get_context_block`: prune, then return the memory block
(`none` stands for the empty string the source returns when nothing remains),
together with the mutated cache state. -/
def getContextBlock (st : CacheState) (session_id : String) (now : Int) :
    Option (List (String × List (String × Json))) × CacheState :=
  if session_id = "" then (none, st)
  else
    match alGet st session_id with
    | none => (none, st)
    | some mem =>
        let mem' := pruneMem now mem
        let st' := alSet st session_id mem'
        if mem'.isEmpty then (none, st')
        else (some (mem'.map (fun kv => (kv.1, kv.2.details))), st')

/-- Keys of a returned snapshot (the empty snapshot has no keys). -/
def snapshotKeys (o : Option (List (String × List (String × Json)))) : List String :=
  (o.getD []).map Prod.fst

/-- C5: writing an entity and reading the session snapshot within
TTL (300 s) returns a snapshot containing it; reading after the TTL elapses
returns a snapshot without it; and a second read after expiry returns the same
empty result (idempotent pruning). -/
theorem episodic_memory_ttl_roundtrip
    (st : CacheState) (sid name : String) (res : List (String × Json)) (t0 t : Int)
    (hsid : sid ≠ "") (hname : name ≠ "")
    (hres : lookupField res "name" = some (.str name)) :
    (t - t0 ≤ TTL_SECONDS →
      name ∈ snapshotKeys (getContextBlock (cacheUpdate st sid [res] t0) sid t).1) ∧
    (alGet st sid = none → t - t0 > TTL_SECONDS →
      (getContextBlock (cacheUpdate st sid [res] t0) sid t).1 = none ∧
      (getContextBlock (getContextBlock (cacheUpdate st sid [res] t0) sid t).2 sid t).1 = none) := by
  have hupd : cacheUpdate st sid [res] t0 =
      alSet st sid (alSet ((alGet st sid).getD []) name
        ⟨name, (lookupField res "kind").getD (.str "Unknown"), res, t0⟩) := by
    simp [cacheUpdate, hsid, hres, hname]
  constructor
  · intro httl
    rw [hupd]
    set ent : ResourceEntity :=
      ⟨name, (lookupField res "kind").getD (.str "Unknown"), res, t0⟩ with hent
    set mem' := alSet ((alGet st sid).getD []) name ent with hmem'
    have hlook : alGet (alSet st sid mem') sid = some mem' := alGet_alSet_self _ _ _
    have hkeep : (name, ent) ∈ pruneMem t mem' := by
      refine List.mem_filter.mpr ⟨alSet_mem_self _ _ _, ?_⟩
      simp only [hent, Bool.not_eq_true', decide_eq_false_iff_not, not_lt]
      omega
    have hne : (pruneMem t mem').isEmpty = false := by
      cases hpm : pruneMem t mem' with
      | nil => rw [hpm] at hkeep; simp at hkeep
      | cons a l => rfl
    simp only [getContextBlock, if_neg hsid, hlook, hne, Bool.false_eq_true,
      if_false, snapshotKeys, Option.getD_some]
    rw [List.map_map]
    exact List.mem_map.mpr ⟨(name, ent), hkeep, rfl⟩
  · intro hfresh hexp
    rw [hupd, hfresh]
    simp only [Option.getD_none]
    set ent : ResourceEntity :=
      ⟨name, (lookupField res "kind").getD (.str "Unknown"), res, t0⟩ with hent
    have hlook : alGet (alSet st sid (alSet [] name ent)) sid = some (alSet [] name ent) :=
      alGet_alSet_self _ _ _
    have hprune : pruneMem t (alSet [] name ent) = [] := by
      simp only [alSet, pruneMem, List.filter, hent]
      have : decide (t - t0 > TTL_SECONDS) = true := decide_eq_true hexp
      simp [this]
    have hfirst : getContextBlock (alSet st sid (alSet [] name ent)) sid t =
        (none, alSet (alSet st sid (alSet [] name ent)) sid []) := by
      simp [getContextBlock, if_neg hsid, hlook, hprune]
    refine ⟨by rw [hfirst], ?_⟩
    rw [hfirst]
    have hlook2 : alGet (alSet (alSet st sid (alSet [] name ent)) sid []) sid =
        some [] := alGet_alSet_self _ _ _
    simp [getContextBlock, if_neg hsid, hlook2, pruneMem]

/-- C5 witness: writing "web-1" at time 0 and reading at time 100 (within the
300-second TTL) returns a snapshot containing "web-1"; reading at time 301
returns the empty snapshot, twice. -/
theorem episodic_memory_ttl_roundtrip_witness :
    "web-1" ∈ snapshotKeys (getContextBlock
        (cacheUpdate [] "s" [[("name", Json.str "web-1")]] 0) "s" 100).1 ∧
    (getContextBlock (cacheUpdate [] "s" [[("name", Json.str "web-1")]] 0) "s" 301).1 = none :=
  ⟨(episodic_memory_ttl_roundtrip [] "s" "web-1" [("name", Json.str "web-1")] 0 100
      (by decide) (by decide) rfl).1 (by decide),
   ((episodic_memory_ttl_roundtrip [] "s" "web-1" [("name", Json.str "web-1")] 0 301
      (by decide) (by decide) rfl).2 rfl (by decide)).1⟩

/-! ## MCP client (devops_agent/mcp/client.py, call_tool_async)

The HTTP interaction is embedded as an explicit outcome value: either the
request raised one of the exceptions Python can produce inside the `try`
block, or it returned a parsed JSON body.  The source's `except` chain
(ConnectError, TimeoutException, `except Exception`) is the `.raised` match
below — it is total, which is exactly the "never raises" contract. -/

/-- The exceptions the `try` block of `call_tool_async` can raise:
`httpx.ConnectError`, `httpx.TimeoutException`, and everything else
(HTTP status errors from `raise_for_status`, JSON decode errors, ...). -/
inductive PyExn where
  | connectError
  | timeoutExn
  | other (msg : String)

/-- One HTTP interaction outcome as seen by the client code. -/
inductive HttpOutcome where
  | raised (e : PyExn)
  | ok (body : Json)

def MCP_URL : String := "http://127.0.0.1:8080"

def K8S_MCP_URL : String := "http://127.0.0.1:8081"

def REMOTE_K8S_MCP_URL : String := "http://127.0.0.1:8082"

/-- URL routing by tool-name prefix, as at the top of `call_tool_async`. -/
def selectUrl (tool_name : String) : String :=
  if strStartsWith tool_name "local_k8s_" || strStartsWith tool_name "k8s_" then K8S_MCP_URL
  else if strStartsWith tool_name "remote_k8s_" then REMOTE_K8S_MCP_URL
  else MCP_URL

/-- Model of `call_tool_async` of devops_agent/mcp/client.py.  The `arguments` go into
the JSON-RPC payload and do not affect the control flow modelled here. -/
def call_tool_async (tool_name : String) (arguments : List (String × Json))
    (outcome : HttpOutcome) : Json :=
  let url := selectUrl tool_name
  match outcome with
  | .raised .connectError =>
      .obj [("success", .bool false),
            ("error", .str ("Cannot connect to MCP server at " ++ url ++ ". Is it running?"))]
  | .raised .timeoutExn =>
      .obj [("success", .bool false), ("error", .str "Request timed out")]
  | .raised (.other msg) =>
      .obj [("success", .bool false), ("error", .str ("Async error: " ++ msg))]
  | .ok body =>
      match getField body "error" with
      | some e => .obj [("success", .bool false), ("error", e), ("original_response", body)]
      | none =>
          (getField body "result").getD
            (.obj [("success", .bool false), ("error", .str "No result returned")])

/-- Outcomes on which `call_tool_async` reports a failure: a raised exception,
a JSON-RPC "error" member, or a body with neither "error" nor "result". -/
def isFailureOutcome (o : HttpOutcome) : Bool :=
  match o with
  | .raised _ => true
  | .ok body =>
      match getField body "error" with
      | some _ => true
      | none => (getField body "result").isNone

/-- C9 (amended): on every failure outcome `call_tool_async` returns a value —
it never raises, since the `except Exception` arm is exhaustive — whose
"success" field is `false` and whose "error" field is present; for every
*raised exception* (connection error, timeout, anything else) the error is a
string.  (For a JSON-RPC "error" member the value is passed through verbatim
and need not be a string; see the counterexample.) -/
theorem backend_failures_are_values
    (tool_name : String) (arguments : List (String × Json)) (o : HttpOutcome)
    (h : isFailureOutcome o = true) :
    getField (call_tool_async tool_name arguments o) "success" = some (.bool false) ∧
    (getField (call_tool_async tool_name arguments o) "error").isSome = true ∧
    (∀ e : PyExn, o = .raised e →
      ∃ s, getField (call_tool_async tool_name arguments o) "error" = some (.str s)) := by
  cases o with
  | raised e =>
    cases e with
    | connectError => exact ⟨rfl, rfl, fun _ _ => ⟨_, rfl⟩⟩
    | timeoutExn => exact ⟨rfl, rfl, fun _ _ => ⟨_, rfl⟩⟩
    | other msg => exact ⟨rfl, rfl, fun _ _ => ⟨_, rfl⟩⟩
  | ok body =>
    cases herr : getField body "error" with
    | some e =>
      have hcall : call_tool_async tool_name arguments (.ok body) =
          .obj [("success", .bool false), ("error", e), ("original_response", body)] := by
        simp only [call_tool_async]
        rw [herr]
      refine ⟨?_, ?_, fun _ h' => HttpOutcome.noConfusion h'⟩ <;> rw [hcall] <;> rfl
    | none =>
      have hres : (getField body "result").isNone = true := by
        simpa [isFailureOutcome, herr] using h
      have hres' : getField body "result" = none := Option.isNone_iff_eq_none.mp hres
      have hcall : call_tool_async tool_name arguments (.ok body) =
          .obj [("success", .bool false), ("error", .str "No result returned")] := by
        simp only [call_tool_async]
        rw [herr, hres']
        rfl
      refine ⟨?_, ?_, fun _ h' => HttpOutcome.noConfusion h'⟩ <;> rw [hcall] <;> rfl

/-- C9 witness: a connection error produces `success=false` with an error
string, through `backend_failures_are_values` at a concrete outcome. -/
theorem backend_failures_are_values_witness :
    isFailureOutcome (HttpOutcome.raised PyExn.connectError) = true ∧
    (getField (call_tool_async "docker_list_containers" []
        (.raised .connectError)) "success" = some (.bool false) ∧
      (getField (call_tool_async "docker_list_containers" []
        (.raised .connectError)) "error").isSome = true ∧
      (∀ e : PyExn, HttpOutcome.raised PyExn.connectError = .raised e →
        ∃ s, getField (call_tool_async "docker_list_containers" []
          (.raised .connectError)) "error" = some (.str s))) :=
  ⟨rfl, backend_failures_are_values "docker_list_containers" [] _ rfl⟩

/-- C9 counterexample: a standard JSON-RPC error member (an object with code
and message, as the `jsonrpc` library and the JSON-RPC 2.0 spec produce) is
passed through verbatim, so the returned map's "error" field is *not* a
string, contrary to the claim's "success=false and an error string". -/
theorem backend_error_value_not_string_counterexample :
    getField (call_tool_async "remote_k8s_list_pods" []
        (.ok (.obj [("error",
          .obj [("code", .num (-32601)), ("message", .str "Method not found")])])))
      "error" =
      some (.obj [("code", .num (-32601)), ("message", .str "Method not found")]) ∧
    ¬ ∃ s, getField (call_tool_async "remote_k8s_list_pods" []
        (.ok (.obj [("error",
          .obj [("code", .num (-32601)), ("message", .str "Method not found")])])))
      "error" = some (.str s) := by
  have h1 : getField (call_tool_async "remote_k8s_list_pods" []
      (.ok (.obj [("error",
        .obj [("code", .num (-32601)), ("message", .str "Method not found")])])))
      "error" =
      some (.obj [("code", .num (-32601)), ("message", .str "Method not found")]) := rfl
  refine ⟨h1, ?_⟩
  rintro ⟨s, hs⟩
  exact Json.noConfusion (Option.some.inj (hs.symm.trans h1))

/-! ## Safety gate and scheduler (devops_agent/agent.py)

`process_query_async` (step 3-5) and `execute_tool_calls_async` share the same
structure: iterate over the resolved calls in order, risk-assess each one, and
on the first dangerous call return a confirmation request immediately — the
coroutines created for earlier safe calls are never awaited, so nothing is
dispatched.  Otherwise every call becomes an `(index, name, coroutine)` task,
`asyncio.gather` collects the results (in task order, whatever the completion
order), a dict keyed by the original index is built, and the per-call output
entries are assembled by walking the original call list.  `asyncio.gather` is
embedded as a fold over an arbitrary completion order that stores each task's
result into its slot. -/

/-- The `confirmation_request` payload: the dangerous tool and its arguments. -/
structure Confirmation where
  tool : String
  arguments : List (String × Json)

/-- The gate-and-schedule loop: risk-assess calls in order; the first dangerous
call aborts with a confirmation request, otherwise each call becomes an
`(original_index, call)` task. -/
def planExecution (danger : String → List (String × Json) → Bool) :
    List ToolCall → Nat → Except Confirmation (List (Nat × ToolCall))
  | [], _ => .ok []
  | c :: rest, idx =>
      if danger c.name c.arguments then .error ⟨c.name, c.arguments⟩
      else
        match planExecution danger rest (idx + 1) with
        | .error conf => .error conf
        | .ok ts => .ok ((idx, c) :: ts)

/-- Store a completed task's result into its slot of the gather buffer. -/
def setSlot : List (Option Json) → Nat → Json → List (Option Json)
  | [], _, _ => []
  | _ :: rest, 0, v => some v :: rest
  | x :: rest, n + 1, v => x :: setSlot rest n v

/-- Model of `asyncio.gather`: tasks complete in arbitrary `order`; each completion
stores its result into the task's own slot, so the returned buffer is aligned
with the task list no matter the completion order. -/
def gatherResults (f : Nat → Json) (order : List Nat) (n : Nat) : List (Option Json) :=
  order.foldl (fun acc j => setSlot acc j (f j)) (List.replicate n none)

/-- The backend result of the `j`-th task. -/
def taskOutcome (backend : String → List (String × Json) → Json)
    (tasks : List (Nat × ToolCall)) (j : Nat) : Json :=
  match tasks.get? j with
  | some t => backend t.2.name t.2.arguments
  | none => .null

/-- Model of `execution_results[original_idx] = (tool_name, res)`, built by walking the
task list and the gather buffer in parallel. -/
def buildExecMap : List (Nat × ToolCall) → List (Option Json) → List (Nat × (String × Json))
  | t :: ts, some res :: rs => (t.1, (t.2.name, res)) :: buildExecMap ts rs
  | _ :: ts, none :: rs => buildExecMap ts rs
  | _, _ => []

/-- The final per-call entries: walk the original call list; position `i` gets
the result stored under key `i`, or no result (the "cancelled" line). -/
def assembleEntries (calls : List ToolCall) (em : List (Nat × (String × Json))) :
    List (String × Option Json) :=
  (List.enumFrom 0 calls).map (fun ic =>
    match alGet em ic.1 with
    | some nr => (ic.2.name, some nr.2)
    | none => (ic.2.name, none))

/-- The turn output: an optional confirmation request, the resolved calls, and
the ordered per-call result entries. -/
structure TurnOutput where
  confirmation : Option Confirmation
  toolCalls : List ToolCall
  entries : List (String × Option Json)

/-- The scheduler: gate, gather, re-index, assemble.  The second component is
the dispatch trace — the `(name, arguments)` pairs actually handed to
`call_tool_async` (empty when the gate aborts, because the un-awaited
coroutines never run). -/
def executeToolCalls (danger : String → List (String × Json) → Bool)
    (backend : String → List (String × Json) → Json)
    (order : List Nat) (calls : List ToolCall) :
    TurnOutput × List (String × List (String × Json)) :=
  match planExecution danger calls 0 with
  | .error conf => ({ confirmation := some conf, toolCalls := calls, entries := [] }, [])
  | .ok tasks =>
      let results := gatherResults (taskOutcome backend tasks) order tasks.length
      let em := buildExecMap tasks results
      ({ confirmation := none, toolCalls := calls, entries := assembleEntries calls em },
        tasks.map (fun t => (t.2.name, t.2.arguments)))

theorem planExecution_error_of_danger
    (danger : String → List (String × Json) → Bool) (calls : List ToolCall) (idx : Nat)
    (h : ∃ c ∈ calls, danger c.name c.arguments = true) :
    ∃ c ∈ calls, danger c.name c.arguments = true ∧
      planExecution danger calls idx = .error ⟨c.name, c.arguments⟩ := by
  induction calls generalizing idx with
  | nil => simp at h
  | cons c rest ih =>
    by_cases hd : danger c.name c.arguments = true
    · exact ⟨c, List.mem_cons_self _ _, hd, by simp [planExecution, hd]⟩
    · obtain ⟨c', hc', hd'⟩ := h
      have hc'' : c' ∈ rest := by
        rcases List.mem_cons.mp hc' with h' | h'
        · exact absurd (h' ▸ hd') hd
        · exact h'
      obtain ⟨c'', hmem, hd'', heq⟩ := ih (idx + 1) ⟨c', hc'', hd'⟩
      refine ⟨c'', List.mem_cons_of_mem _ hmem, hd'', ?_⟩
      simp [planExecution, hd, heq]

theorem planExecution_ok_of_safe
    (danger : String → List (String × Json) → Bool) (calls : List ToolCall) (idx : Nat)
    (h : ∀ c ∈ calls, danger c.name c.arguments = false) :
    planExecution danger calls idx = .ok (List.enumFrom idx calls) := by
  induction calls generalizing idx with
  | nil => rfl
  | cons c rest ih =>
    have hc := h c (List.mem_cons_self _ _)
    rw [planExecution]
    simp only [hc, Bool.false_eq_true, if_false,
      ih (idx + 1) (fun x hx => h x (List.mem_cons_of_mem _ hx))]
    rfl

/-- C1: if any call in the batch is flagged dangerous, nothing is dispatched
(the dispatch trace is empty, and there are no result entries) and the turn
output carries exactly one confirmation request naming a dangerous call of the
batch and its arguments. -/
theorem safety_gate_atomicity
    (danger : String → List (String × Json) → Bool)
    (backend : String → List (String × Json) → Json)
    (order : List Nat) (calls : List ToolCall)
    (hdanger : ∃ c ∈ calls, danger c.name c.arguments = true) :
    ∃ c ∈ calls, danger c.name c.arguments = true ∧
      (executeToolCalls danger backend order calls).1.confirmation =
        some ⟨c.name, c.arguments⟩ ∧
      (executeToolCalls danger backend order calls).2 = [] ∧
      (executeToolCalls danger backend order calls).1.entries = [] := by
  obtain ⟨c, hmem, hd, heq⟩ := planExecution_error_of_danger danger calls 0 hdanger
  exact ⟨c, hmem, hd, by simp [executeToolCalls, heq], by simp [executeToolCalls, heq],
    by simp [executeToolCalls, heq]⟩

/-- C1 witness: a batch of one dangerous call between two safe ones executes
nothing and yields one confirmation request naming the dangerous call. -/
theorem safety_gate_atomicity_witness :
    ∃ c ∈ [ToolCall.mk "docker_list_containers" [] false "" false "",
           ToolCall.mk "docker_stop_container" [("container_id", Json.str "web")] false "" false "",
           ToolCall.mk "local_k8s_list_pods" [] false "" false ""],
      (fun n _ => n == "docker_stop_container") c.name c.arguments = true ∧
      (executeToolCalls (fun n _ => n == "docker_stop_container")
          (fun _ _ => Json.obj [("success", Json.bool true)]) [0, 1, 2]
          [ToolCall.mk "docker_list_containers" [] false "" false "",
           ToolCall.mk "docker_stop_container" [("container_id", Json.str "web")] false "" false "",
           ToolCall.mk "local_k8s_list_pods" [] false "" false ""]).1.confirmation =
        some ⟨c.name, c.arguments⟩ ∧
      (executeToolCalls (fun n _ => n == "docker_stop_container")
          (fun _ _ => Json.obj [("success", Json.bool true)]) [0, 1, 2]
          [ToolCall.mk "docker_list_containers" [] false "" false "",
           ToolCall.mk "docker_stop_container" [("container_id", Json.str "web")] false "" false "",
           ToolCall.mk "local_k8s_list_pods" [] false "" false ""]).2 = [] ∧
      (executeToolCalls (fun n _ => n == "docker_stop_container")
          (fun _ _ => Json.obj [("success", Json.bool true)]) [0, 1, 2]
          [ToolCall.mk "docker_list_containers" [] false "" false "",
           ToolCall.mk "docker_stop_container" [("container_id", Json.str "web")] false "" false "",
           ToolCall.mk "local_k8s_list_pods" [] false "" false ""]).1.entries = [] :=
  safety_gate_atomicity (fun n _ => n == "docker_stop_container")
    (fun _ _ => Json.obj [("success", Json.bool true)]) [0, 1, 2] _
    ⟨ToolCall.mk "docker_stop_container" [("container_id", Json.str "web")] false "" false "",
      by simp, by decide⟩

theorem setSlot_length (l : List (Option Json)) (j : Nat) (v : Json) :
    (setSlot l j v).length = l.length := by
  induction l generalizing j with
  | nil => rfl
  | cons x rest ih =>
    cases j with
    | zero => rfl
    | succ n => simp [setSlot, ih]

theorem setSlot_get_self (l : List (Option Json)) (j : Nat) (v : Json)
    (hj : j < l.length) : (setSlot l j v).get? j = some (some v) := by
  induction l generalizing j with
  | nil => simp at hj
  | cons x rest ih =>
    cases j with
    | zero => rfl
    | succ n =>
      simp only [setSlot, List.get?_cons_succ]
      exact ih n (by simpa using hj)

theorem setSlot_get_ne (l : List (Option Json)) (i j : Nat) (v : Json)
    (hij : i ≠ j) : (setSlot l j v).get? i = l.get? i := by
  induction l generalizing i j with
  | nil => rfl
  | cons x rest ih =>
    cases j with
    | zero =>
      cases i with
      | zero => exact absurd rfl hij
      | succ m => rfl
    | succ n =>
      cases i with
      | zero => rfl
      | succ m =>
        simp only [setSlot, List.get?_cons_succ]
        exact ih m n (fun h => hij (by rw [h]))

theorem gather_slot (f : Nat → Json) (order : List Nat) (acc : List (Option Json))
    (j : Nat) (hj : j < acc.length)
    (h : j ∈ order ∨ acc.get? j = some (some (f j))) :
    (order.foldl (fun a i => setSlot a i (f i)) acc).get? j = some (some (f j)) := by
  induction order generalizing acc with
  | nil =>
    rcases h with h | h
    · simp at h
    · simpa using h
  | cons i rest ih =>
    simp only [List.foldl_cons]
    apply ih (setSlot acc i (f i)) (by rw [setSlot_length]; exact hj)
    by_cases hij : j = i
    · subst hij
      exact Or.inr (setSlot_get_self acc j (f j) hj)
    · rcases h with h | h
      · rcases List.mem_cons.mp h with h' | h'
        · exact absurd h' hij
        · exact Or.inl h'
      · exact Or.inr (by rw [setSlot_get_ne acc j i (f i) hij]; exact h)

theorem gatherResults_slot (f : Nat → Json) (order : List Nat) (n : Nat) (j : Nat)
    (hj : j < n) (hcov : j ∈ order) :
    (gatherResults f order n).get? j = some (some (f j)) :=
  gather_slot f order (List.replicate n none) j (by simpa using hj) (Or.inl hcov)

theorem execMap_lookup (r : Nat → Json) (calls : List ToolCall) (k : Nat)
    (results : List (Option Json))
    (hres : ∀ j, j < calls.length → results.get? j = some (some (r (k + j))))
    (i : Nat) (c : ToolCall) (hc : calls.get? i = some c) :
    alGet (buildExecMap (List.enumFrom k calls) results) (k + i) =
      some (c.name, r (k + i)) := by
  induction calls generalizing k results i with
  | nil => simp at hc
  | cons c0 rest ih =>
    have h0 := hres 0 (by simp)
    cases results with
    | nil => simp at h0
    | cons r0 rs =>
      have hr0 : r0 = some (r k) := by simpa using h0
      subst hr0
      cases i with
      | zero =>
        have hc0 : c0 = c := by simpa using hc
        subst hc0
        simp [List.enumFrom, buildExecMap, alGet]
      | succ i' =>
        have hc' : rest.get? i' = some c := by simpa using hc
        have hres' : ∀ j, j < rest.length → rs.get? j = some (some (r (k + 1 + j))) := by
          intro j hjl
          have := hres (j + 1) (by simpa using Nat.succ_lt_succ hjl)
          simpa [Nat.add_assoc, Nat.add_comm 1 j] using this
        have hrec := ih (k + 1) rs hres' i' hc'
        have hkey : k + (i' + 1) = k + 1 + i' := by omega
        rw [hkey]
        simp only [List.enumFrom, buildExecMap, alGet]
        rw [if_neg (by omega)]
        exact hrec

theorem enumFrom_get? {α : Type} (l : List α) (k i : Nat) :
    (List.enumFrom k l).get? i = (l.get? i).map (fun a => (k + i, a)) := by
  induction l generalizing k i with
  | nil => simp [List.enumFrom]
  | cons x rest ih =>
    cases i with
    | zero => simp [List.enumFrom]
    | succ n =>
      simp only [List.enumFrom, List.get?_cons_succ, ih (k + 1) n]
      cases rest.get? n with
      | none => rfl
      | some a => simp [Nat.add_assoc, Nat.add_comm 1 n]

theorem assembleEntries_get? (calls : List ToolCall) (em : List (Nat × (String × Json)))
    (i : Nat) (c : ToolCall) (hc : calls.get? i = some c) :
    (assembleEntries calls em).get? i =
      some (match alGet em i with
        | some nr => (c.name, some nr.2)
        | none => (c.name, none)) := by
  simp only [assembleEntries]
  rw [List.get?_map, enumFrom_get?, hc]
  simp only [Nat.zero_add]
  rfl

/-- C2: for a batch of N safe calls dispatched concurrently, whatever the
completion order (as long as every task completes), the aggregated output has
exactly N entries and the entry at position i carries call i's name and the
backend result of call i — completion order never permutes results, and a
failing result (a `success=false` value) still lands in its own slot. -/
theorem scheduler_order_preservation
    (danger : String → List (String × Json) → Bool)
    (backend : String → List (String × Json) → Json)
    (order : List Nat) (calls : List ToolCall)
    (hsafe : ∀ c ∈ calls, danger c.name c.arguments = false)
    (hcover : ∀ j, j < calls.length → j ∈ order) :
    (executeToolCalls danger backend order calls).1.entries.length = calls.length ∧
    ∀ i c, calls.get? i = some c →
      (executeToolCalls danger backend order calls).1.entries.get? i =
        some (c.name, some (backend c.name c.arguments)) := by
  have hplan := planExecution_ok_of_safe danger calls 0 hsafe
  have hout : (executeToolCalls danger backend order calls).1.entries =
      assembleEntries calls
        (buildExecMap (List.enumFrom 0 calls)
          (gatherResults (taskOutcome backend (List.enumFrom 0 calls)) order
            (List.enumFrom 0 calls).length)) := by
    simp [executeToolCalls, hplan]
  have hlen : (List.enumFrom 0 calls).length = calls.length := by
    simp [List.enumFrom_length]
  have htask : ∀ j c, calls.get? j = some c →
      taskOutcome backend (List.enumFrom 0 calls) j = backend c.name c.arguments := by
    intro j c hc
    simp only [taskOutcome, enumFrom_get?, hc]
    rfl
  have hres : ∀ j, j < calls.length →
      (gatherResults (taskOutcome backend (List.enumFrom 0 calls)) order
          (List.enumFrom 0 calls).length).get? j =
        some (some (taskOutcome backend (List.enumFrom 0 calls) (0 + j))) := by
    intro j hj
    rw [Nat.zero_add]
    exact gatherResults_slot _ order _ j (by rw [hlen]; exact hj) (hcover j hj)
  constructor
  · rw [hout]
    simp [assembleEntries, List.enumFrom_length]
  · intro i c hc
    rw [hout]
    have hmap := execMap_lookup
      (taskOutcome backend (List.enumFrom 0 calls)) calls 0 _ hres i c hc
    rw [Nat.zero_add] at hmap
    rw [assembleEntries_get? calls _ i c hc, hmap, htask i c hc]

/-- A two-call batch where the second backend call fails, used to exercise the
scheduler at a concrete input. -/
def sampleBackend : String → List (String × Json) → Json := fun n _ =>
  if n == "local_k8s_list_pods" then Json.obj [("success", Json.bool true)]
  else Json.obj [("success", Json.bool false), ("error", Json.str "boom")]

/-- The concrete two-call batch for the scheduler example. -/
def sampleCalls : List ToolCall :=
  [ToolCall.mk "local_k8s_list_pods" [] false "" false "",
   ToolCall.mk "remote_k8s_list_nodes" [] false "" false ""]

/-- C2 witness: two safe calls completing in reversed order `[1, 0]`, the
second failing, still produce entries in input order with each call's own
result. -/
theorem scheduler_order_preservation_witness :
    (executeToolCalls (fun _ _ => false) sampleBackend [1, 0] sampleCalls).1.entries.length = 2 ∧
    ∀ i c, sampleCalls.get? i = some c →
      (executeToolCalls (fun _ _ => false) sampleBackend [1, 0] sampleCalls).1.entries.get? i =
        some (c.name, some (sampleBackend c.name c.arguments)) := by
  have h := scheduler_order_preservation (fun _ _ => false) sampleBackend [1, 0] sampleCalls
    (by intro c _; rfl) (by decide)
  exact ⟨h.1.trans (by rfl), h.2⟩

/-! ## Batch describe (devops_agent/agent.py, _execute_batch_describe and the
summary helpers _extract_events_summary / _extract_conditions_summary) -/

/-- Completion of one describe task under
`asyncio.gather(..., return_exceptions=True)`: either the coroutine raised
(the exception becomes a value) or it returned a result dict. -/
inductive DescOutcome where
  | exn (msg : String)
  | res (r : Json)

/-- Model of `list_key_map` of `_execute_batch_describe`. -/
def list_key_map : List (String × String) :=
  [("pod", "pods"), ("deployment", "deployments"),
   ("service", "services"), ("node", "nodes")]

/-- A JSON value as a list (Python iterates `result.get(key, [])`; a missing
key or a non-list is the empty iteration). -/
def jsonListOrEmpty : Option Json → List Json
  | some (.arr xs) => xs
  | _ => []

/-- Model of `item.get("name")` when truthy and a string (unnamed items are skipped). -/
def itemName (item : Json) : Option String :=
  match getField item "name" with
  | some (.str n) => if n = "" then none else some n
  | _ => none

/-- Model of `item.get("phase", item.get("status", "Unknown"))`. -/
def itemStatus (item : Json) : Json :=
  (getField item "phase").getD ((getField item "status").getD (.str "Unknown"))

/-- The per-item describe arguments: namespace (except for nodes) plus the
resource-specific name key. -/
def batchArgs (resource_type ns name : String) : List (String × Json) :=
  let args := if resource_type != "node" then [("namespace", Json.str ns)] else []
  if resource_type == "pod" then args ++ [("pod_name", Json.str name)]
  else if resource_type == "node" then args ++ [("node_name", Json.str name)]
  else if resource_type == "deployment" then args ++ [("deployment_name", Json.str name)]
  else if resource_type == "service" then args ++ [("service_name", Json.str name)]
  else args ++ [("name", Json.str name)]

/-- Python `"sep".join(parts)`. -/
def joinSep (sep : String) : List String → String
  | [] => ""
  | [x] => x
  | x :: xs => x ++ sep ++ joinSep sep xs

/-- Python `s[:n]`. -/
def strTake (n : Nat) (s : String) : String := String.mk (s.data.take n)

/-- Model of `e.get("message", str(e))[:50]`; the `str(e)` fallback for an event whose
message is absent or not a string is modelled as the empty string (no theorem
depends on it). -/
def eventMessage (e : Json) : String :=
  match getField e "message" with
  | some (.str m) => m
  | _ => ""

/-- Model of `_extract_events_summary` of agent.py. -/
def extract_events_summary (r : Json) : String :=
  let ev0 := jsonListOrEmpty (getField r "events")
  let ev := if ev0.isEmpty then
      (match getField r "data" with
       | some (.obj fs) => jsonListOrEmpty (lookupField fs "events")
       | _ => [])
    else ev0
  if ev.isEmpty then "No recent events"
  else
    let recent := if ev.length > 2 then ev.drop (ev.length - 2) else ev
    joinSep "; " (recent.map (fun e => strTake 50 (eventMessage e)))

/-- Model of `c.get("status") != "True"` is a failing condition. -/
def condIsTrue (c : Json) : Bool :=
  match getField c "status" with
  | some (.str s) => s == "True"
  | _ => false

/-- Model of `c.get("type", "Unknown")` (non-string types are also rendered "Unknown"). -/
def condType (c : Json) : String :=
  match getField c "type" with
  | some (.str t) => t
  | _ => "Unknown"

/-- Model of `_extract_conditions_summary` of agent.py. -/
def extract_conditions_summary (r : Json) : String :=
  let c0 := jsonListOrEmpty (getField r "conditions")
  let cs := if c0.isEmpty then
      (match getField r "data" with
       | some (.obj fs) => jsonListOrEmpty (lookupField fs "conditions")
       | _ => [])
    else c0
  if cs.isEmpty then "No conditions"
  else
    let failing := cs.filter (fun c => !condIsTrue c)
    if !failing.isEmpty then
      toString failing.length ++ " issue(s): " ++ joinSep ", " ((failing.take 3).map condType)
    else "All conditions healthy"

/-- One aggregated entry of the batch output, from the item at position `i`
and that item's own describe outcome (exception value, success, or failure). -/
def mkBatchEntry (full_detail : Bool) (i : Nat) (item : Json) (o : DescOutcome) : Json :=
  let nameJ := (getField item "name").getD (.str ("Resource " ++ toString (i + 1)))
  let st := itemStatus item
  match o with
  | .exn msg => .obj [("name", nameJ), ("status", st), ("error", .str msg)]
  | .res r =>
      if truthyOpt (getField r "success") then
        if full_detail then
          .obj [("name", nameJ), ("status", st), ("details", (getField r "data").getD r)]
        else
          .obj [("name", nameJ), ("status", st),
                ("events", .str (extract_events_summary r)),
                ("conditions", .str (extract_conditions_summary r))]
      else
        .obj [("name", nameJ), ("status", st),
              ("error", (getField r "error").getD (.str "Unknown error"))]

/-- Model of `zip(items, describe_results)` folded into the aggregation loop (Python's
zip stops at the shorter list; the index feeds the "Resource i+1" fallback). -/
def zipEntries (full_detail : Bool) : Nat → List Json → List DescOutcome → List Json
  | _, [], _ => []
  | _, _ :: _, [] => []
  | i, it :: its, o :: os =>
      mkBatchEntry full_detail i it o :: zipEntries full_detail (i + 1) its os

/-- Model of `_execute_batch_describe` of agent.py: read the listed items, issue one
describe call per *named* item (concurrently, with exceptions returned as
values), and aggregate one entry per item into a single batch result. -/
def executeBatchDescribe (result : Json) (resource_type : String) (pfx : String)
    (full_detail : Bool) (ns : String)
    (describeBackend : String → List (String × Json) → DescOutcome) : Option Json :=
  let listKey := (lookupStr list_key_map resource_type).getD "pods"
  let items := jsonListOrEmpty (getField result listKey)
  if items.isEmpty then none
  else
    let describe_tool := if resource_type == "service" then pfx ++ "get_service"
      else pfx ++ "describe_" ++ resource_type
    let namedItems := items.filterMap (fun it => (itemName it).map (fun n => (it, n)))
    let describe_results := namedItems.map
      (fun p => describeBackend describe_tool (batchArgs resource_type ns p.2))
    let batch_output := zipEntries full_detail 0 items describe_results
    some (.obj [("success", .bool true), ("_batch", .bool true),
      ("_full_detail", .bool full_detail), ("resource_type", .str resource_type),
      ("resources", .arr batch_output),
      ("count", .num batch_output.length)])

theorem zipEntries_spec (fd : Bool) (d : List (String × Json) → DescOutcome)
    (rt ns : String) (items : List Json) (k : Nat)
    (hall : ∀ it ∈ items, (itemName it).isSome = true) :
    (zipEntries fd k items
        ((items.filterMap (fun it => (itemName it).map (fun n => (it, n)))).map
          (fun p => d (batchArgs rt ns p.2)))).length = items.length ∧
    ∀ i it, items.get? i = some it →
      (zipEntries fd k items
          ((items.filterMap (fun it => (itemName it).map (fun n => (it, n)))).map
            (fun p => d (batchArgs rt ns p.2)))).get? i =
        some (mkBatchEntry fd (k + i) it
          (d (batchArgs rt ns ((itemName it).getD "")))) := by
  induction items generalizing k with
  | nil => exact ⟨rfl, by intro i it h; simp at h⟩
  | cons it0 its ih =>
    obtain ⟨n0, hn0⟩ := Option.isSome_iff_exists.mp (hall it0 (List.mem_cons_self _ _))
    have hrest := ih (k + 1) (fun x hx => hall x (List.mem_cons_of_mem _ hx))
    have hfm : (it0 :: its).filterMap (fun it => (itemName it).map (fun n => (it, n))) =
        (it0, n0) :: its.filterMap (fun it => (itemName it).map (fun n => (it, n))) := by
      simp [List.filterMap_cons, hn0]
    rw [hfm]
    simp only [List.map_cons, zipEntries]
    constructor
    · simp only [List.length_cons, hrest.1]
    · intro i it hit
      cases i with
      | zero =>
        have : it0 = it := by simpa using hit
        subst this
        simp only [List.get?_cons_zero, Nat.add_zero, hn0, Option.getD_some]
      | succ i' =>
        have hit' : its.get? i' = some it := by simpa using hit
        have := hrest.2 i' it hit'
        simp only [List.get?_cons_succ, this]
        have harith : k + 1 + i' = k + (i' + 1) := by omega
        rw [harith]

/-- C4: if the underlying list result carries K ≥ 1 resources, each with a
name, then the aggregated batch result exists, its `count` equals K, its
`resources` array has exactly K entries, and the entry at position i is a
function of item i and item i's own describe outcome alone — another item's
error or exception cannot suppress or alter it. -/
theorem batch_describe_aggregation
    (result : Json) (resource_type pfx ns : String) (full_detail : Bool)
    (describeBackend : String → List (String × Json) → DescOutcome)
    (items : List Json)
    (hitems : jsonListOrEmpty
      (getField result ((lookupStr list_key_map resource_type).getD "pods")) = items)
    (hne : items ≠ [])
    (hall : ∀ it ∈ items, (itemName it).isSome = true) :
    ∃ entries : List Json,
      executeBatchDescribe result resource_type pfx full_detail ns describeBackend =
        some (.obj [("success", .bool true), ("_batch", .bool true),
          ("_full_detail", .bool full_detail), ("resource_type", .str resource_type),
          ("resources", .arr entries), ("count", .num entries.length)]) ∧
      entries.length = items.length ∧
      ∀ i it, items.get? i = some it →
        entries.get? i = some (mkBatchEntry full_detail i it
          (describeBackend
            (if resource_type == "service" then pfx ++ "get_service"
             else pfx ++ "describe_" ++ resource_type)
            (batchArgs resource_type ns ((itemName it).getD "")))) := by
  have hspec := zipEntries_spec full_detail
    (describeBackend (if resource_type == "service" then pfx ++ "get_service"
      else pfx ++ "describe_" ++ resource_type))
    resource_type ns items 0 hall
  refine ⟨zipEntries full_detail 0 items
    ((items.filterMap (fun it => (itemName it).map (fun n => (it, n)))).map
      (fun p => describeBackend
        (if resource_type == "service" then pfx ++ "get_service"
         else pfx ++ "describe_" ++ resource_type)
        (batchArgs resource_type ns p.2))), ?_, hspec.1, ?_⟩
  · simp only [executeBatchDescribe, hitems]
    rw [if_neg (by simpa [List.isEmpty_iff] using hne)]
  · intro i it hit
    have := hspec.2 i it hit
    simpa using this

/-- A describe backend for the batch example: "web-1" succeeds, everything
else raises. -/
def sampleDescribeBackend : String → List (String × Json) → DescOutcome := fun _ args =>
  match lookupField args "pod_name" with
  | some (.str "web-1") => .res (.obj [("success", .bool true)])
  | _ => .exn "connection reset"

/-- The two listed pods of the batch example. -/
def samplePods : List Json :=
  [Json.obj [("name", .str "web-1"), ("phase", .str "Running")],
   Json.obj [("name", .str "web-2"), ("phase", .str "Failed")]]

/-- C4 witness: two named pods, the second describe raising, aggregate into a
batch result with count 2 and one independent entry per pod. -/
theorem batch_describe_aggregation_witness :
    ∃ entries : List Json,
      executeBatchDescribe
        (.obj [("success", .bool true), ("pods", .arr samplePods)])
        "pod" "remote_k8s_" false "default" sampleDescribeBackend =
        some (.obj [("success", .bool true), ("_batch", .bool true),
          ("_full_detail", .bool false), ("resource_type", .str "pod"),
          ("resources", .arr entries), ("count", .num entries.length)]) ∧
      entries.length = samplePods.length ∧
      ∀ i it, samplePods.get? i = some it →
        entries.get? i = some (mkBatchEntry false i it
          (sampleDescribeBackend
            (if ("pod" : String) == "service" then "remote_k8s_" ++ "get_service"
             else "remote_k8s_" ++ "describe_" ++ "pod")
            (batchArgs "pod" "default" ((itemName it).getD "")))) := by
  refine batch_describe_aggregation _ "pod" "remote_k8s_" "default" false
    sampleDescribeBackend samplePods rfl ?_ ?_
  · intro h; cases h
  · intro it hit
    rcases List.mem_cons.mp hit with h | h
    · subst h; rfl
    · rcases List.mem_cons.mp h with h' | h'
      · subst h'; rfl
      · simp at h'

/-! ## Stage-A pattern matcher (devops_agent/regex_router.py, RegexRouter)

The router tries its precompiled patterns in order and returns on the first
`fullmatch`.  The first three patterns — `batch_describe`, `list_resources`,
`describe_resource` — are embedded here over whitespace-tokenized queries;
keyword positions compare case-insensitively (the source compiles with re.I)
while captured tokens keep their original text, matching the regex semantics.
Later patterns (logs, nodes, docker, promotion, diagnostics) are only reached
when none of the first three match; no theorem below evaluates the router on
such a query, and the model returns `none` there. -/

/-- Whitespace tokenization (also performs the source's `query.strip()`). -/
def wordsAux : List Char → List Char → List String
  | [], acc => if acc.isEmpty then [] else [String.mk acc.reverse]
  | c :: cs, acc =>
      if c = ' ' then
        if acc.isEmpty then wordsAux cs [] else String.mk acc.reverse :: wordsAux cs []
      else wordsAux cs (c :: acc)

/-- Split a query into its whitespace-separated tokens. -/
def tokenize (s : String) : List String := wordsAux s.data []

/-- A `[\w-]+` token: word characters and hyphens. -/
def isWordTok (s : String) : Bool :=
  !s.isEmpty && s.data.all (fun c => c.isAlphanum || c = '_' || c = '-')

/-- The `PHASES_LIST` alternation of RegexRouter. -/
def phasesList : List String :=
  ["running", "pending", "failed", "succeeded", "unknown", "paused"]

/-- Python `str.capitalize()`. -/
def capitalizeStr (s : String) : String :=
  match s.data with
  | [] => ""
  | c :: cs => String.mk (c.toUpper :: cs.map Char.toLower)

/-- Python `str.rstrip("s")`. -/
def rstripS (s : String) : String :=
  String.mk ((s.data.reverse.dropWhile (fun c => c = 's')).reverse)

/-- Does the string end with the given pattern? -/
def strEndsWith (s pat : String) : Bool :=
  charsHavePfx pat.data.reverse s.data.reverse

/-- Captures of the `list_resources` pattern. -/
structure ListCapture where
  remote : Bool
  rtype : String
  phase : Option String
  phaseAlt : Option String
  ns : Option String

/-- Captures of the `describe_resource` pattern. -/
structure DetailCapture where
  remote : Bool
  rtype : String
  rname : String
  ns : Option String

/-- Captures of the `batch_describe` pattern. -/
structure BatchCapture where
  status : Option String
  remote : Bool
  resource : String
  detail : Bool
  ns : Option String

/-- Consume an optional single keyword token (case-insensitive). -/
def eatKeyword (kw : String) : List String → Bool × List String
  | t :: r => if lowerStr t = kw then (true, r) else (false, t :: r)
  | [] => (false, [])

/-- Consume an optional phase token, capturing its raw text. -/
def eatPhase : List String → Option String × List String
  | t :: r => if phasesList.contains (lowerStr t) then (some t, r) else (none, t :: r)
  | [] => (none, [])

/-- Tail of `list_resources`: optional `that are <phase>`, optional `in <ns>`,
then end of input (fullmatch). -/
def matchListTail : List String → Option (Option String × Option String)
  | [] => some (none, none)
  | t1 :: t2 :: p :: r =>
      if lowerStr t1 = "that" && lowerStr t2 = "are" && phasesList.contains (lowerStr p) then
        match r with
        | [] => some (some p, none)
        | t3 :: ns :: [] =>
            if lowerStr t3 = "in" && isWordTok ns then some (some p, some ns) else none
        | _ => none
      else none
  | t1 :: ns :: [] =>
      if lowerStr t1 = "in" && isWordTok ns then some (none, some ns) else none
  | _ => none

/-- The `list_resources` pattern:
`(list|get|show|describe) (all the |all )?(remote )?(<phase> )?
 (pods|deployments|services|namespaces)( that are <phase>)?( in <ns>)?`. -/
def matchListResources (toks : List String) : Option ListCapture :=
  match toks with
  | [] => none
  | verb :: rest =>
    if ["list", "get", "show", "describe"].contains (lowerStr verb) then
      let rest1 := match rest with
        | t1 :: t2 :: r =>
            if lowerStr t1 = "all" && lowerStr t2 = "the" then r
            else if lowerStr t1 = "all" then t2 :: r
            else t1 :: t2 :: r
        | t1 :: r => if lowerStr t1 = "all" then r else t1 :: r
        | [] => []
      let (isRemote, rest2) := eatKeyword "remote" rest1
      let (ph, rest3) := eatPhase rest2
      match rest3 with
      | rt :: tail =>
          if ["pods", "deployments", "services", "namespaces"].contains (lowerStr rt) then
            match matchListTail tail with
            | some (phAlt, ns) => some ⟨isRemote, lowerStr rt, ph, phAlt, ns⟩
            | none => none
          else none
      | [] => none
    else none

/-- The `describe_resource` pattern:
`(get|describe|show) (remote )?(pod|deployment|service|namespace) <name>( in <ns>)?`. -/
def matchDescribeResource (toks : List String) : Option DetailCapture :=
  match toks with
  | [] => none
  | verb :: rest =>
    if ["get", "describe", "show"].contains (lowerStr verb) then
      let (isRemote, rest1) := eatKeyword "remote" rest
      match rest1 with
      | rt :: nm :: rest2 =>
          if ["pod", "deployment", "service", "namespace"].contains (lowerStr rt)
              && isWordTok nm then
            match rest2 with
            | [] => some ⟨isRemote, lowerStr rt, nm, none⟩
            | t1 :: ns :: [] =>
                if lowerStr t1 = "in" && isWordTok ns then
                  some ⟨isRemote, lowerStr rt, nm, some ns⟩
                else none
            | _ => none
          else none
      | _ => none
    else none

/-- The optional detail phrase of `batch_describe`
(`with full details`, `verbose`, `detailed`, ...). -/
def matchBatchDetail : List String → Option (List String)
  | [] => none
  | t :: r =>
    let core : List String → Option (List String) := fun l =>
      match l with
      | w :: r' =>
          if lowerStr w = "verbose" || lowerStr w = "detailed" then some r'
          else if lowerStr w = "full" || lowerStr w = "every" then
            match r' with
            | d :: r'' =>
                if lowerStr d = "details" || lowerStr d = "detail" then some r'' else none
            | [] => none
          else if lowerStr w = "all" then
            match r' with
            | d :: r'' =>
                if lowerStr d = "details" || lowerStr d = "detail" then some r''
                else if lowerStr d = "the" then
                  match r'' with
                  | d2 :: r3 =>
                      if lowerStr d2 = "details" || lowerStr d2 = "detail" then some r3 else none
                  | [] => none
                else none
            | [] => none
          else none
      | [] => none
    if lowerStr t = "with" then core r else core (t :: r)

/-- The `batch_describe` pattern:
`describe (all( the)?|every) (<phase>)? (remote )?(pods?|...)(detail)?( in <ns>)?`. -/
def matchBatchDescribe (toks : List String) : Option BatchCapture :=
  match toks with
  | [] => none
  | d :: rest =>
    if lowerStr d = "describe" then
      let rest1 : Option (List String) := match rest with
        | a :: t :: r =>
            if lowerStr a = "all" && lowerStr t = "the" then some r
            else if lowerStr a = "all" || lowerStr a = "every" then some (t :: r)
            else none
        | a :: r => if lowerStr a = "all" || lowerStr a = "every" then some r else none
        | [] => none
      match rest1 with
      | none => none
      | some r1 =>
        let (st, r2) := eatPhase r1
        let (isRemote, r3) := eatKeyword "remote" r2
        match r3 with
        | rt :: tail =>
            if ["pod", "pods", "deployment", "deployments", "service", "services",
                "node", "nodes"].contains (lowerStr rt) then
              let (det, tail2) := match matchBatchDetail tail with
                | some t' => (true, t')
                | none => (false, tail)
              match tail2 with
              | [] => some ⟨st.map lowerStr, isRemote, lowerStr rt, det, none⟩
              | t1 :: ns :: [] =>
                  if lowerStr t1 = "in" && isWordTok ns then
                    some ⟨st.map lowerStr, isRemote, lowerStr rt, det, some ns⟩
                  else none
              | _ => none
            else none
        | [] => none
    else none

/-- The argument-building block of `RegexRouter.route` (lines 144-214) for the
captures the `list_resources` / `describe_resource` branches can produce:
namespace (captured or defaulted), the `name` capture, the status phase
(capitalized, `paused` dropped), and the performance `limit`. -/
def buildArgs (tool_name : String) (ns : Option String) (nameCap : Option String)
    (phaseRaw : Option String) : List (String × Json) :=
  let args : List (String × Json) := []
  let args := match ns with
    | some n => args ++ [("namespace", Json.str n)]
    | none =>
        if ["pods", "deployments", "services", "trace", "diff", "analyze", "events"].any
            (fun x => strContains tool_name x) then
          args ++ [("namespace", Json.str "default")]
        else args
  let args := match nameCap with
    | some n => args ++ [("name", Json.str n)]
    | none => args
  let args := match phaseRaw with
    | some p =>
        let phase := lowerStr p
        if phase = "paused" then args
        else args ++ [("status_phase", Json.str (capitalizeStr phase))]
    | none => args
  let args := if strContains tool_name "list" || strContains tool_name "ps" then
      args ++ [("limit", Json.num 50)]
    else args
  args

/-- The `list_resources` branch of `RegexRouter.route`. -/
def routeList (lc : ListCapture) : ToolCall :=
  let pfx := if lc.remote then "remote_k8s_" else "local_k8s_"
  let tool_name := pfx ++ "list_" ++ lc.rtype
  let phaseRaw := match lc.phase with
    | some p => some p
    | none => lc.phaseAlt
  ⟨tool_name, buildArgs tool_name lc.ns none phaseRaw, false, "", false, ""⟩

/-- The `describe_resource` branch of `RegexRouter.route` (with the
service-tool naming fix `describe` -> `get`). -/
def routeDetail (dc : DetailCapture) : ToolCall :=
  let pfx := if dc.remote then "remote_k8s_" else "local_k8s_"
  let tool_name := if dc.rtype = "service" then pfx ++ "get_" ++ dc.rtype
    else pfx ++ "describe_" ++ dc.rtype
  ⟨tool_name, buildArgs tool_name dc.ns (some dc.rname) none, false, "", false, ""⟩

/-- The `batch_describe` branch: one list call carrying `_batch_*` metadata. -/
def routeBatch (bc : BatchCapture) : ToolCall :=
  let rtype := if strEndsWith bc.resource "s" then bc.resource else bc.resource ++ "s"
  let pfx := if bc.remote then "remote_k8s_" else "local_k8s_"
  let list_tool := pfx ++ "list_" ++ rtype
  let args : List (String × Json) := [("limit", Json.num 100)]
  let args := match bc.status with
    | some st => args ++ [("status_phase", Json.str (capitalizeStr st))]
    | none => args
  let args := match bc.ns with
    | some n => args ++ [("namespace", Json.str n)]
    | none =>
        if ["pods", "deployments", "services"].contains rtype then
          args ++ [("namespace", Json.str "default")]
        else args
  ⟨list_tool, args, true, rstripS bc.resource, bc.detail, pfx⟩

/-- Model of `RegexRouter.route`: try the patterns in order, return on the first match. -/
def route (query : String) : Option (List ToolCall) :=
  let toks := tokenize query
  match matchBatchDescribe toks with
  | some bc => some [routeBatch bc]
  | none =>
    match matchListResources toks with
    | some lc => some [routeList lc]
    | none =>
      match matchDescribeResource toks with
      | some dc => some [routeDetail dc]
      | none => none

/-- C8 (amended): the query "list remote pods" pattern-matches to exactly one
resolved call — capability `remote_k8s_list_pods` with arguments
`{namespace: "default", limit: 50}`. -/
theorem stage_a_list_remote_pods_route :
    route "list remote pods" =
      some [ToolCall.mk "remote_k8s_list_pods"
        [("namespace", Json.str "default"), ("limit", Json.num 50)] false "" false ""] := rfl

/-- C8 counterexample: the claim's resolved call — capability name
`remote_list_pods` with `namespace` as the only argument — is not what Stage A
produces for "list remote pods", under either reading: the produced call's
argument keys are not `["namespace"]` (it also carries `limit: 50`), and its
name is not `remote_list_pods` (it is `remote_k8s_list_pods`). -/
theorem stage_a_list_remote_pods_claim_false :
    (¬ ∃ c : ToolCall, route "list remote pods" = some [c] ∧
      c.arguments.map Prod.fst = ["namespace"]) ∧
    (¬ ∃ c : ToolCall, route "list remote pods" = some [c] ∧
      c.name = "remote_list_pods") := by
  have hactual : route "list remote pods" =
      some [ToolCall.mk "remote_k8s_list_pods"
        [("namespace", Json.str "default"), ("limit", Json.num 50)] false "" false ""] := rfl
  constructor
  · rintro ⟨c, hroute, hkeys⟩
    rw [hactual] at hroute
    have hc : ToolCall.mk "remote_k8s_list_pods"
        [("namespace", Json.str "default"), ("limit", Json.num 50)] false "" false "" = c := by
      simpa using Option.some.inj hroute
    rw [← hc] at hkeys
    exact absurd hkeys (by decide)
  · rintro ⟨c, hroute, hname⟩
    rw [hactual] at hroute
    have hc : ToolCall.mk "remote_k8s_list_pods"
        [("namespace", Json.str "default"), ("limit", Json.num 50)] false "" false "" = c := by
      simpa using Option.some.inj hroute
    rw [← hc] at hname
    exact absurd hname (by decide)

/-! ## Capability registry and schema validation
(devops_agent/agent_module.py `_validate_semantics`; the `required` lists of
k8s_tools/remote_k8s_tools.py, remote_k8s_extended_tools.py,
remote_k8s_service_tools.py, local_k8s_list_nodes.py, local_k8s_list_pods.py) -/

/-- One registry entry: the tool's name and its schema's `required` list —
the only schema parts `_validate_semantics` consults. -/
structure ToolSchema where
  name : String
  required : List String

/-- Model of `schema_map[name]` lookup (tool names in the registry are unique). -/
def lookupSchema : List ToolSchema → String → Option ToolSchema
  | [], _ => none
  | s :: rest, n => if s.name = n then some s else lookupSchema rest n

/-- Model of `get_remote_k8s_tools_schema()`: the thirteen remote-cluster tools with
their declared required arguments. -/
def remoteK8sToolsSchema : List ToolSchema := [
  ⟨"remote_k8s_list_pods", []⟩,
  ⟨"remote_k8s_list_nodes", []⟩,
  ⟨"remote_k8s_list_namespaces", []⟩,
  ⟨"remote_k8s_find_pod_namespace", ["pod_names"]⟩,
  ⟨"remote_k8s_get_resources_ips", ["resource_type"]⟩,
  ⟨"remote_k8s_list_deployments", []⟩,
  ⟨"remote_k8s_describe_deployment", ["deployment_name"]⟩,
  ⟨"remote_k8s_describe_node", ["node_name"]⟩,
  ⟨"remote_k8s_describe_pod", ["pod_name"]⟩,
  ⟨"remote_k8s_describe_namespace", ["namespace_name"]⟩,
  ⟨"remote_k8s_list_services", []⟩,
  ⟨"remote_k8s_get_service", ["service_name"]⟩,
  ⟨"remote_k8s_describe_service", ["service_name"]⟩]

/-- The value of `call.get('arguments', {})`: the supplied arguments, or the
empty dict when the key is absent.  The source never coerces this to a dict,
so it can be any JSON value. -/
def argsValue (c : Json) : Json :=
  (getField c "arguments").getD (.obj [])

/-- Keys of the call's arguments when it is a dict — the `keys(arguments)` of
the spec's invariant.  A non-dict arguments value supplies no keys. -/
def argKeys (c : Json) : List String :=
  match getField c "arguments" with
  | some (.obj fs) => fs.map Prod.fst
  | _ => []

/-- Is the value a JSON object? -/
def isObjJson : Json → Bool
  | .obj _ => true
  | _ => false

/-- Python's `req in args` as `_validate_semantics` evaluates it: key
membership on a dict, *substring* containment on a string, element equality on
a list.  On a number, boolean or None, Python raises TypeError; both the raise
and a `False` here prevent `_validate_semantics` from returning `(True, "")`,
which is all the theorems rely on, so those cases are modelled as `false`. -/
def pyInArgs : Json → String → Bool
  | .obj fs, r => (fs.map Prod.fst).contains r
  | .str s, r => strContains s r
  | .arr xs, r => xs.any (fun x => match x with | .str t => t = r | _ => false)
  | _, _ => false

/-- Model of `_validate_semantics` of agent_module.py: the first unknown tool name or
required argument failing Python's `in` containment on the supplied arguments
value fails with an error message.  A missing or non-string name is not a key
of `schema_map`, hence also fails. -/
def validate_semantics : List Json → List ToolSchema → Bool × String
  | [], _ => (true, "")
  | c :: rest, registry =>
      match getField c "name" with
      | some (.str n) =>
          match lookupSchema registry n with
          | none => (false, "Tool '" ++ n ++
              "' does not exist. Please check 'available_tools' for the correct name.")
          | some sch =>
              match sch.required.find? (fun r => !(pyInArgs (argsValue c) r)) with
              | some r => (false, "Tool '" ++ n ++
                  "' is missing required argument: '" ++ r ++ "'.")
              | none => validate_semantics rest registry
      | _ => (false,
          "Tool 'None' does not exist. Please check 'available_tools' for the correct name.")

/-- The spec's pre-dispatch invariant for a dispatched `(name, arguments)`
pair, stated from the spec's words (`required_args ⊆ keys(arguments)` and the
name exists in the registry), to compare with what the code dispatches. -/
def schemaOkNamed (registry : List ToolSchema) (p : String × List (String × Json)) : Bool :=
  match lookupSchema registry p.1 with
  | some sch => sch.required.all (fun r => (p.2.map Prod.fst).contains r)
  | none => false

/-- The same invariant on a parsed JSON call dict. -/
def schemaOkJson (registry : List ToolSchema) (c : Json) : Bool :=
  match getField c "name" with
  | some (.str n) =>
      match lookupSchema registry n with
      | some sch => sch.required.all (fun r => (argKeys c).contains r)
      | none => false
  | _ => false

/-- Modelled from the spec: `analyze_risk` itself is not under src/ (only its
callers in agent.py are).  Spec §6: "the default policy flags state-mutating
capabilities (create/start/stop/delete-class operations) and passes read-only
ones." -/
def analyze_risk_dangerous (tool_name : String)
    (arguments : List (String × Json)) : Bool :=
  ["create", "start", "stop", "delete", "run"].any (fun k => strContains tool_name k)

/-- The Stage-A fast path of `process_query_async`: an instant router match
bypasses the language model (and `_validate_semantics`) entirely — the matched
calls go through disambiguation and then straight into the safety gate and
the scheduler. -/
def processInstantQuery (query : String) (history : List Msg)
    (backend : String → List (String × Json) → Json) (order : List Nat) :
    Option (TurnOutput × List (String × List (String × Json))) :=
  (route query).map (fun tool_calls =>
    executeToolCalls analyze_risk_dangerous backend order
      (disambiguate query history tool_calls))

theorem planExecution_tasks_safe
    (danger : String → List (String × Json) → Bool) :
    ∀ (calls : List ToolCall) (idx : Nat) (tasks : List (Nat × ToolCall)),
      planExecution danger calls idx = .ok tasks →
      ∀ t ∈ tasks, danger t.2.name t.2.arguments = false := by
  intro calls
  induction calls with
  | nil =>
    intro idx tasks h t ht
    simp only [planExecution] at h
    cases h
    simp at ht
  | cons c rest ih =>
    intro idx tasks h t ht
    by_cases hd : danger c.name c.arguments = true
    · simp [planExecution, hd] at h
    · have hd' : danger c.name c.arguments = false := by
        simpa using hd
      cases hrec : planExecution danger rest (idx + 1) with
      | error conf => simp [planExecution, hd', hrec] at h
      | ok ts =>
        simp only [planExecution, hd', Bool.false_eq_true, if_false, hrec] at h
        cases h
        rcases List.mem_cons.mp ht with h' | h'
        · rw [h']; exact hd'
        · exact ih (idx + 1) ts hrec t h'

theorem validate_semantics_sound (registry : List ToolSchema) :
    ∀ jcalls : List Json, validate_semantics jcalls registry = (true, "") →
      ∀ c ∈ jcalls, ∃ n sch, getField c "name" = some (.str n) ∧
        lookupSchema registry n = some sch ∧
        ∀ r ∈ sch.required, pyInArgs (argsValue c) r = true := by
  intro jcalls
  induction jcalls with
  | nil => intro _ c hc; simp at hc
  | cons c rest ih =>
    intro h c' hc'
    cases hn : getField c "name" with
    | none =>
      simp only [validate_semantics, hn] at h
      rw [Prod.mk.injEq] at h
      exact absurd h.1 (by decide)
    | some v =>
      cases v with
      | str n =>
        cases hs : lookupSchema registry n with
        | none =>
          simp only [validate_semantics, hn, hs] at h
          rw [Prod.mk.injEq] at h
          exact absurd h.1 (by decide)
        | some sch =>
          cases hm : sch.required.find? (fun r => !(pyInArgs (argsValue c) r)) with
          | some r =>
            simp only [validate_semantics, hn, hs, hm] at h
            rw [Prod.mk.injEq] at h
            exact absurd h.1 (by decide)
          | none =>
            simp only [validate_semantics, hn, hs, hm] at h
            rcases List.mem_cons.mp hc' with h' | h'
            · subst h'
              refine ⟨n, sch, hn, hs, fun r hr => ?_⟩
              have := List.find?_eq_none.mp hm r hr
              simpa using this
            · exact ih h c' h'
      | null =>
        simp only [validate_semantics, hn] at h
        rw [Prod.mk.injEq] at h
        exact absurd h.1 (by decide)
      | bool b =>
        simp only [validate_semantics, hn] at h
        rw [Prod.mk.injEq] at h
        exact absurd h.1 (by decide)
      | num m =>
        simp only [validate_semantics, hn] at h
        rw [Prod.mk.injEq] at h
        exact absurd h.1 (by decide)
      | arr xs =>
        simp only [validate_semantics, hn] at h
        rw [Prod.mk.injEq] at h
        exact absurd h.1 (by decide)
      | obj fs =>
        simp only [validate_semantics, hn] at h
        rw [Prod.mk.injEq] at h
        exact absurd h.1 (by decide)

theorem pyInArgs_obj_eq_argKeys (c : Json) (r : String)
    (hobj : isObjJson (argsValue c) = true) :
    pyInArgs (argsValue c) r = (argKeys c).contains r := by
  cases hga : getField c "arguments" with
  | none => simp [argsValue, hga, pyInArgs, argKeys]
  | some v =>
    cases v with
    | obj fs => simp [argsValue, hga, pyInArgs, argKeys]
    | null => simp [argsValue, hga, isObjJson] at hobj
    | bool b => simp [argsValue, hga, isObjJson] at hobj
    | num m => simp [argsValue, hga, isObjJson] at hobj
    | str s => simp [argsValue, hga, isObjJson] at hobj
    | arr xs => simp [argsValue, hga, isObjJson] at hobj

/-- A call the language-model path could produce whose arguments value is a
*string*: Python's `"pod_name" not in "pod_name: web-1"` is a substring test
and `_validate_semantics` accepts the call although it supplies no keys. -/
def strArgsCall : Json :=
  Json.obj [("name", Json.str "remote_k8s_describe_pod"),
            ("arguments", Json.str "pod_name: web-1")]

/-- A validated call whose arguments value is a dict with `pod_name`. -/
def dictArgsCall : Json :=
  Json.obj [("name", Json.str "remote_k8s_describe_pod"),
            ("arguments", Json.obj [("pod_name", Json.str "web-1")])]

/-- C3 (amended): every call the scheduler dispatches was risk-assessed (and
found safe) in the gate loop just before dispatch.  When the language-model
path's `_validate_semantics` succeeds, every validated call names a registry
capability and each required argument passes Python's `in` containment on the
supplied arguments value; that yields `required ⊆ keys(arguments)` exactly
when the arguments value is a dict, while a string arguments value can pass by
substring and supply no keys at all (last conjunct).  Stage-A pattern-match
calls and prose-extraction fallback calls are dispatched without any schema
validation — see the counterexample. -/
theorem dispatch_risk_assessed_and_validated_calls_schema_ok
    (danger : String → List (String × Json) → Bool)
    (calls : List ToolCall) (idx : Nat) (tasks : List (Nat × ToolCall))
    (registry : List ToolSchema) (jcalls : List Json)
    (hplan : planExecution danger calls idx = .ok tasks)
    (hval : validate_semantics jcalls registry = (true, "")) :
    (∀ t ∈ tasks, danger t.2.name t.2.arguments = false) ∧
    (∀ c ∈ jcalls, ∃ n sch, getField c "name" = some (.str n) ∧
      lookupSchema registry n = some sch ∧
      ∀ r ∈ sch.required, pyInArgs (argsValue c) r = true) ∧
    (∀ c ∈ jcalls, isObjJson (argsValue c) = true → schemaOkJson registry c = true) ∧
    (validate_semantics [strArgsCall] remoteK8sToolsSchema = (true, "") ∧
      argKeys strArgsCall = []) := by
  have hsound := validate_semantics_sound registry jcalls hval
  refine ⟨planExecution_tasks_safe danger calls idx tasks hplan, hsound, ?_, rfl, rfl⟩
  intro c hc hobj
  obtain ⟨n, sch, hn, hs, hr⟩ := hsound c hc
  simp only [schemaOkJson, hn, hs]
  rw [List.all_eq_true]
  intro r hrm
  rw [← pyInArgs_obj_eq_argKeys c r hobj]
  exact hr r hrm

/-- C3 witness: a safe describe call passes the gate; a validated call with a
dict arguments value carrying `pod_name` satisfies the spec invariant; and the
string-arguments call is accepted by the validator while supplying no keys. -/
theorem dispatch_risk_assessed_and_validated_calls_schema_ok_witness :
    (∀ t ∈ [((0 : Nat), ToolCall.mk "remote_k8s_list_pods" [] false "" false "")],
      analyze_risk_dangerous t.2.name t.2.arguments = false) ∧
    (∀ c ∈ [dictArgsCall], ∃ n sch, getField c "name" = some (.str n) ∧
      lookupSchema remoteK8sToolsSchema n = some sch ∧
      ∀ r ∈ sch.required, pyInArgs (argsValue c) r = true) ∧
    (∀ c ∈ [dictArgsCall], isObjJson (argsValue c) = true →
      schemaOkJson remoteK8sToolsSchema c = true) ∧
    (validate_semantics [strArgsCall] remoteK8sToolsSchema = (true, "") ∧
      argKeys strArgsCall = []) :=
  dispatch_risk_assessed_and_validated_calls_schema_ok analyze_risk_dangerous
    [ToolCall.mk "remote_k8s_list_pods" [] false "" false ""] 0
    [((0 : Nat), ToolCall.mk "remote_k8s_list_pods" [] false "" false "")]
    remoteK8sToolsSchema [dictArgsCall] rfl rfl

/-- C3 counterexample: the Stage-A query "describe remote pod web-1" resolves
to `remote_k8s_describe_pod` with arguments `{name: "web-1"}` — the registry
requires `pod_name` — and this call is dispatched to the backend anyway: the
dispatch trace contains a call that fails the claimed schema invariant. -/
theorem stage_a_dispatch_skips_schema_validation_counterexample :
    ∃ res, processInstantQuery "describe remote pod web-1" []
        (fun _ _ => Json.obj [("success", Json.bool true)]) [0] = some res ∧
      ("remote_k8s_describe_pod", [("name", Json.str "web-1")]) ∈ res.2 ∧
      ¬ (∀ p ∈ res.2, schemaOkNamed remoteK8sToolsSchema p = true) := by
  refine ⟨_, rfl, ?_, ?_⟩
  · exact List.mem_singleton.mpr rfl
  · intro h
    have := h ("remote_k8s_describe_pod", [("name", Json.str "web-1")])
      (List.mem_singleton.mpr rfl)
    exact absurd this (by decide)

/-! ## Language-model output parsing (devops_agent/agent_module.py:
`_validate_and_parse`, `_normalize_single`, `_normalize_tool_list`, and the
fast/careful branch decision of `DockerAgent.forward`)

`json_repair.loads` is embedded as a standard JSON parser: on well-formed
input (all the theorems evaluate it on such input) the repair library parses
exactly like the standard decoder; its repair heuristics for malformed text
are not modelled.  String escapes and non-integral numbers are likewise not
needed by any theorem and are left out of the literal parser. -/

/-- JSON-level whitespace. -/
def isWsChar (c : Char) : Bool := c = ' ' || c = '\n' || c = '\t' || c = '\r'

/-- Skip leading whitespace. -/
def skipWs : List Char → List Char
  | [] => []
  | c :: cs => if isWsChar c then skipWs cs else c :: cs

/-- Scan a string literal body up to the closing quote. -/
def strLitAux : List Char → List Char → Option (String × List Char)
  | [], _ => none
  | c :: cs, acc =>
      if c = '"' then some (String.mk acc.reverse, cs) else strLitAux cs (c :: acc)

/-- Collect a run of digits. -/
def digitsAux : List Char → List Char → (List Char × List Char)
  | [], acc => (acc.reverse, [])
  | c :: cs, acc =>
      if c.isDigit then digitsAux cs (c :: acc) else (acc.reverse, c :: cs)

/-- Digits to a natural number. -/
def natFromDigits (ds : List Char) : Nat :=
  ds.foldl (fun n c => n * 10 + (c.toNat - 48)) 0

mutual

/-- Parse one JSON value (fuelled recursion; the fuel exceeds any possible
nesting of the input). -/
def parseValue : Nat → List Char → Option (Json × List Char)
  | 0, _ => none
  | fuel + 1, cs =>
    match skipWs cs with
    | '[' :: rest =>
        (match skipWs rest with
         | ']' :: rest2 => some (.arr [], rest2)
         | rest2 =>
             match parseItems fuel rest2 with
             | some (xs, rest3) => some (.arr xs, rest3)
             | none => none)
    | '{' :: rest =>
        (match skipWs rest with
         | '}' :: rest2 => some (.obj [], rest2)
         | rest2 =>
             match parseFields fuel rest2 with
             | some (fs, rest3) => some (.obj fs, rest3)
             | none => none)
    | '"' :: rest =>
        (match strLitAux rest [] with
         | some (s, r) => some (.str s, r)
         | none => none)
    | 't' :: 'r' :: 'u' :: 'e' :: r => some (.bool true, r)
    | 'f' :: 'a' :: 'l' :: 's' :: 'e' :: r => some (.bool false, r)
    | 'n' :: 'u' :: 'l' :: 'l' :: r => some (.null, r)
    | '-' :: r =>
        (match digitsAux r [] with
         | ([], _) => none
         | (ds, rest) => some (.num (-(natFromDigits ds : Int)), rest))
    | c :: r =>
        if c.isDigit then
          (match digitsAux (c :: r) [] with
           | ([], _) => none
           | (ds, rest) => some (.num (natFromDigits ds), rest))
        else none
    | [] => none

/-- Parse the items of a non-empty JSON array, consuming the closing `]`. -/
def parseItems : Nat → List Char → Option (List Json × List Char)
  | 0, _ => none
  | fuel + 1, cs =>
      match parseValue fuel cs with
      | some (v, rest) =>
          (match skipWs rest with
           | ',' :: rest2 =>
               (match parseItems fuel rest2 with
                | some (xs, r) => some (v :: xs, r)
                | none => none)
           | ']' :: rest2 => some ([v], rest2)
           | _ => none)
      | none => none

/-- Parse the fields of a non-empty JSON object, consuming the closing `}`. -/
def parseFields : Nat → List Char → Option (List (String × Json) × List Char)
  | 0, _ => none
  | fuel + 1, cs =>
      match skipWs cs with
      | '"' :: rest =>
          (match strLitAux rest [] with
           | some (k, rest1) =>
               (match skipWs rest1 with
                | ':' :: rest2 =>
                    (match parseValue fuel rest2 with
                     | some (v, rest3) =>
                         (match skipWs rest3 with
                          | ',' :: rest4 =>
                              (match parseFields fuel rest4 with
                               | some (fs, r) => some ((k, v) :: fs, r)
                               | none => none)
                          | '}' :: rest4 => some ([(k, v)], rest4)
                          | _ => none)
                     | none => none)
                | _ => none)
           | none => none)
      | _ => none

end

/-- Model of `json_repair.loads` on well-formed input: parse one value, then only
trailing whitespace may remain. -/
def json_repair_loads (s : String) : Option Json :=
  match parseValue (s.length + 2) s.data with
  | some (v, rest) => if (skipWs rest).isEmpty then some v else none
  | none => none

/-- Python `str.strip()`. -/
def strTrim (s : String) : String :=
  String.mk ((s.data.dropWhile isWsChar).reverse.dropWhile isWsChar).reverse

/-- Split on newlines, accumulating the current line. -/
def linesAux : List Char → List Char → List String
  | [], acc => [String.mk acc.reverse]
  | c :: cs, acc =>
      if c = '\n' then String.mk acc.reverse :: linesAux cs []
      else linesAux cs (c :: acc)

/-- Python `str.splitlines()` (no entry for a trailing newline). -/
def splitLines (s : String) : List String :=
  let ls := linesAux s.data []
  match ls.getLast? with
  | some "" => ls.dropLast
  | _ => ls

/-- Model of `isinstance(item, dict) and "name" in item`. -/
def isDictWithName (item : Json) : Bool :=
  match item with
  | .obj fs => (lookupField fs "name").isSome
  | _ => false

/-- Model of `_normalize_single` of agent_module.py: keep the item's arguments (or its
`parameters`), replacing falsy arguments with the empty dict. -/
def normalize_single (item : Json) : Json :=
  match item with
  | .obj fs =>
      let args := (lookupField fs "arguments").getD ((lookupField fs "parameters").getD (.obj []))
      let args := if truthy args then args else .obj []
      .obj [("name", (lookupField fs "name").getD .null), ("arguments", args)]
  | other => other

/-- Model of `_normalize_tool_list` of agent_module.py: the `[name, args]` and `[name]`
forms become a singleton call; otherwise bare strings and named dicts are
normalized and anything else is dropped. -/
def normalize_tool_list (data : List Json) : List Json :=
  match data with
  | [.str n, .obj fs] => [.obj [("name", .str n), ("arguments", .obj fs)]]
  | [.str n] => [.obj [("name", .str n), ("arguments", .obj [])]]
  | _ =>
      data.foldr (fun item acc =>
        match item with
        | .str s => .obj [("name", .str s), ("arguments", .obj [])] :: acc
        | .obj fs =>
            if (lookupField fs "name").isSome then normalize_single (.obj fs) :: acc
            else acc
        | _ => acc) []

/-- Model of `_validate_and_parse` of agent_module.py: strip, drop a markdown fence,
require a leading bracket, parse, and accept only a *non-empty* list with a
named dict (or a bare named dict as a singleton).  The embedded-JSON regex
extraction for prose outputs (reached only when the cleaned text starts with
neither `[` nor `{`) is modelled as no-match; no theorem evaluates it. -/
def validate_and_parse (output : String) : Option (List Json) :=
  if output = "" then none
  else
    let cleaned := strTrim output
    let cleaned := if strStartsWith cleaned "```" then
        (let lines := splitLines cleaned
         if lines.length ≥ 3 then joinSep "\n" (lines.drop 1).dropLast else cleaned)
      else cleaned
    if !(strStartsWith cleaned "[") && !(strStartsWith cleaned "\x7b") then none
    else
      match json_repair_loads cleaned with
      | some (.arr xs) =>
          if xs.length > 0 then
            if xs.any isDictWithName then some (normalize_tool_list xs) else none
          else none
      | some (.obj fs) =>
          if (lookupField fs "name").isSome then some [normalize_single (.obj fs)] else none
      | _ => none

/-- Which branch of `DockerAgent.forward` produces the result: the fast
zero-shot path returns only when its output parses and passes semantic
validation; otherwise control falls to the chain-of-thought retry loop. -/
inductive AgentPath where
  | fastPath (calls : List Json)
  | smartPath

/-- The fast/careful branch decision of `DockerAgent.forward` as a function of
the fast model's raw output. -/
def forwardPathOf (fastRaw : String) (registry : List ToolSchema) : AgentPath :=
  match validate_and_parse fastRaw with
  | some calls => if (validate_semantics calls registry).1 then .fastPath calls else .smartPath
  | none => .smartPath

/-- C10: a syntactically valid empty JSON list parses to `[]`, which the
`len(data) > 0` guard classifies as invalid — `_validate_and_parse` returns
None — so a fast-path response meaning "no tools needed" always falls through
to the chain-of-thought retry loop instead of returning an empty tool-call
list. -/
theorem empty_json_list_is_parse_failure :
    validate_and_parse "[]" = none ∧
    ∀ registry : List ToolSchema, forwardPathOf "[]" registry = .smartPath := by
  refine ⟨rfl, ?_⟩
  intro registry
  rfl

end DevopsAgent
